import Mathlib

/-!
A shallow embedding of the `velm` terminal editor core (crate `velm_core`)
and proofs about it.  Rust `usize` values are modelled as `Nat`
(`saturating_sub` is `Nat` subtraction; `saturating_add` is `Nat`
addition, which differs only at the irrelevant `usize::MAX` bound), Rust
`String`s as `List Char` (one element per Unicode scalar value), and
in-place mutation as functions returning the new value.
-/

namespace Velm

/-! ## Geometry (src/velm_core/src/ui.rs) -/

/-- A position in ui space (`Position { col, row }`). -/
structure Position where
  col : Nat
  row : Nat
deriving DecidableEq, Repr

def Position.default : Position := ⟨0, 0⟩

/-- Rect represents an area/container in the ui. -/
structure Rect where
  width : Nat
  height : Nat
  position : Position
deriving DecidableEq, Repr

def Rect.positioned (width height col row : Nat) : Rect :=
  ⟨width, height, ⟨col, row⟩⟩

def Rect.area (r : Rect) : Nat := r.width * r.height

def Rect.left (r : Rect) : Nat := r.position.col

def Rect.right (r : Rect) : Nat := r.position.col + r.width - 1

def Rect.top (r : Rect) : Nat := r.position.row

def Rect.bottom (r : Rect) : Nat := r.position.row + r.height - 1

def Rect.contains (r : Rect) (p : Position) : Bool :=
  r.left ≤ p.col && p.col ≤ r.right && r.top ≤ p.row && p.row ≤ r.bottom

/-! ## Grapheme clusters

The Rust code addresses rows by grapheme-cluster index through the
external `unicode_segmentation` crate (`graphemes(true)`).  That crate is
an external dependency, not part of this repository.

Modelled from the spec: "Grapheme cluster: the smallest user-perceived
character unit (may span multiple Unicode scalar values); the unit of
addressing for all row operations" and "a multi-byte cluster (e.g., a
combining sequence or emoji) counts as one unit".  We model the UAX #29
`Extend` property for the Combining Diacritical Marks block
(U+0300..U+036F, all of which carry `Extend`): a cluster is a starter
scalar followed by its `Extend` scalars, and a cluster boundary falls
before every non-`Extend` scalar.  This captures exactly the combining
sequences the spec talks about. -/

/-- `Extend` property, restricted to the Combining Diacritical Marks block. -/
def isExtend (c : Char) : Bool :=
  0x300 ≤ c.toNat && c.toNat ≤ 0x36F

/-- Segment a string into grapheme clusters: a scalar joins the following
cluster's head when that head carries `Extend`; leading `Extend` scalars
form a degenerate cluster of their own. -/
def graphemes : List Char → List (List Char)
  | [] => []
  | c :: cs =>
    match graphemes cs with
    | [] => [[c]]
    | [] :: gs => [c] :: [] :: gs
    | (d :: g) :: gs =>
      if isExtend d then (c :: d :: g) :: gs else [c] :: (d :: g) :: gs

/-! ## Row (src/velm_core/src/row.rs) -/

/-- A single row of text within the editor. -/
structure Row where
  string : List Char
deriving DecidableEq, Repr

instance : Inhabited Row := ⟨⟨[]⟩⟩

namespace Row

/-- `impl From<&str> for Row`. -/
def fromStr (slice : List Char) : Row := ⟨slice⟩

/-- `Row::len`: the length of the Row, graphemes accounted for. -/
def len (r : Row) : Nat := (graphemes r.string).length

/-- `Row::is_empty`. -/
def is_empty (r : Row) : Bool := r.len = 0

/-- `Row::append`: append another Row to the current Row. -/
def append (r new : Row) : Row := ⟨r.string ++ new.string⟩

/-- `Row::delete`: delete the character at the given index; nothing
happens if the index is at or past the length. -/
def delete (r : Row) (i : Nat) : Row :=
  if i ≥ r.len then r
  else ⟨((graphemes r.string).take i).flatten ++ ((graphemes r.string).drop (i + 1)).flatten⟩

/-- `Row::insert`: insert a character at the given grapheme index; at or
past the length it is pushed onto the end. -/
def insert (r : Row) (i : Nat) (ch : Char) : Row :=
  if i ≥ r.len then ⟨r.string ++ [ch]⟩
  else ⟨((graphemes r.string).take i).flatten ++ ch :: ((graphemes r.string).drop i).flatten⟩

/-- `Row::split`: truncate to the first `i` graphemes and return the
remainder as a new Row; modelled as returning the pair (head, tail). -/
def split (r : Row) (i : Nat) : Row × Row :=
  (⟨((graphemes r.string).take i).flatten⟩, ⟨((graphemes r.string).drop i).flatten⟩)

/-- `Row::to_string(start, end)` restricted to the full row
(`Row::contents`): every grapheme in order, tabs rendered as one space.
(`end = min(len(), byte_len)` equals `len()` because each cluster holds
at least one byte.) -/
def contents (r : Row) : List Char :=
  ((graphemes r.string).map (fun g => if g = ['\t'] then [' '] else g)).flatten

end Row

/-! ## Document (src/velm_core/src/document.rs) -/

structure Document where
  file_name : Option (List Char)
  rows : List Row
deriving DecidableEq, Repr

namespace Document

/-- `Document::default`: one empty row, no file name. -/
def default : Document := ⟨none, [⟨[]⟩]⟩

def len (d : Document) : Nat := d.rows.length

def row (d : Document) (index : Nat) : Option Row := d.rows.get? index

end Document

/-- Rust `str::lines` (used by `Document::open`): split on `'\n'`,
stripping one `'\r'` before each `'\n'`; a final fragment without a
terminating `'\n'` is kept as written; no trailing empty line. -/
def stripTrailingCR (l : List Char) : List Char :=
  match l.getLast? with
  | some c => if c = '\r' then l.dropLast else l
  | none => l

def linesAux : List Char → List Char → List (List Char)
  | [], cur => if cur = [] then [] else [cur.reverse]
  | c :: cs, cur =>
    if c = '\n' then stripTrailingCR cur.reverse :: linesAux cs []
    else linesAux cs (c :: cur)

def rustLines (s : List Char) : List (List Char) := linesAux s []

namespace Document

/-- `Document::open`, modelled over the file's contents (the read itself
is the external file contract): one `Row` per line of the contents, file
name recorded. -/
def openFromContents (filename : List Char) (contents : List Char) : Document :=
  ⟨some filename, (rustLines contents).map (fun l => ⟨l⟩)⟩

/-- `Document::save`: records the supplied name (if any) and writes every
row followed by `'\n'`; modelled as returning the new document state and
the written byte stream (the write itself is the external file
contract; with no file name nothing is written). -/
def save (d : Document) (filename : Option (List Char)) : Document × List Char :=
  let d' : Document :=
    match filename with
    | some f => { d with file_name := some f }
    | none => d
  match d'.file_name with
  | some _ => (d', (d'.rows.map (fun r => r.string ++ ['\n'])).flatten)
  | none => (d', [])

/-- `Document::delete`. -/
def delete (d : Document) (at_ : Position) : Document :=
  if at_.row ≥ d.len then d
  else
    let cur := d.rows.getD at_.row Inhabited.default
    if at_.col = cur.len ∧ at_.row < d.len - 1 then
      let next := d.rows.getD (at_.row + 1) Inhabited.default
      { d with rows := (d.rows.eraseIdx (at_.row + 1)).set at_.row (cur.append next) }
    else
      { d with rows := d.rows.set at_.row (cur.delete at_.col) }

/-- Error message of `Document::insert`'s out-of-range branch. -/
def insertErr : List Char :=
  "trying to insert character past current string length".toList

/-- `Document::insert`: returns the new document and the error, if any
(`&mut self -> Result<()>` in Rust; on error the document is returned
unchanged). -/
def insert (d : Document) (at_ : Position) (ch : Char) :
    Document × Option (List Char) :=
  if at_.row = d.len then
    ({ d with rows := d.rows ++ [Row.insert ⟨[]⟩ 0 ch] }, none)
  else if at_.row < d.len then
    ({ d with rows := d.rows.set at_.row ((d.rows.getD at_.row Inhabited.default).insert at_.col ch) }, none)
  else
    (d, some insertErr)

/-- `Document::insert_newline`. -/
def insert_newline (d : Document) (at_ : Position) : Document :=
  if at_.row > d.len then d
  else if at_.row = d.len then { d with rows := d.rows ++ [⟨[]⟩] }
  else
    let pr := (d.rows.getD at_.row Inhabited.default).split at_.col
    { d with rows := ((d.rows.set at_.row pr.1).insertIdx (at_.row + 1) pr.2) }

end Document

/-! ## Keys, modes and messages
(src/velm_core/src/input.rs, mode.rs, communication.rs) -/

/-- `Key` presses accepted by the editor. -/
inductive Key where
  | Enter | Tab | Backspace | Esc | Left | Right | Up | Down
  | Insert | Delete | Home | End | PageUp | PageDown
  | Char (c : Char)
  | Ctrl (c : Char)
  | Unknown
deriving DecidableEq, Repr

/-- `Mode`: `Execute { row, cursor_position }`, `Insert`, and
`Normal { input_buffer }`. -/
inductive Mode where
  | execute (row : Row) (cursor_position : Position)
  | insert
  | normal (input_buffer : List Char)
deriving DecidableEq, Repr

/-- `Mode::default()` is `Normal` with an empty input buffer. -/
def Mode.default : Mode := Mode.normal []

/-- `Execute::default()`. -/
def Mode.executeDefault : Mode := Mode.execute ⟨[]⟩ Position.default

/-- `Message`: all messages the editor and its components understand. -/
inductive Message where
  | AbortCommandLineInput
  | EndCommandLineInput
  | ParseCommandLineInput (input : List Char)
  | EnterMode (mode : Mode)
  | InsertChar (ch : Char)
  | InsertLineBreak
  | DeleteCharForward
  | DeleteCharBackward
  | MoveCursorUp (n : Nat)
  | MoveCursorDown (n : Nat)
  | MoveCursorLeft (n : Nat)
  | MoveCursorRight (n : Nat)
  | MoveCursorLineStart
  | MoveCursorLineEnd
  | MoveCursorPageUp
  | MoveCursorPageDown
  | Save
  | SaveAs (name : List Char)
  | Quit
deriving DecidableEq, Repr

/-- `Command` is a deferred computation yielding one `Message`; every
command the code constructs is `communication::wrap(msg)`, so a command
is modelled by the message it will produce. -/
def Command := Message
deriving DecidableEq

instance {ε α : Type} [DecidableEq ε] [DecidableEq α] :
    DecidableEq (Except ε α) := fun a b =>
  match a, b with
  | Except.error e1, Except.error e2 =>
    decidable_of_iff (e1 = e2) (by simp)
  | Except.error _, Except.ok _ => isFalse (fun h => Except.noConfusion h)
  | Except.ok _, Except.error _ => isFalse (fun h => Except.noConfusion h)
  | Except.ok a1, Except.ok a2 =>
    decidable_of_iff (a1 = a2) (by simp)

/-! ## nom parser combinators, as used by the grammars in mode.rs.
A parser takes the input and either fails (`none`) or returns the
remaining input and a value. -/

/-- `nom::character::complete::char`. -/
def pchar (c : Char) : List Char → Option (List Char × Char) := fun s =>
  match s with
  | [] => none
  | x :: rest => if x = c then some (rest, c) else none

/-- `nom::combinator::all_consuming`. -/
def allConsuming {α : Type} (p : List Char → Option (List Char × α)) :
    List Char → Option (List Char × α) := fun s =>
  match p s with
  | some (rest, a) => if rest = [] then some (rest, a) else none
  | none => none

/-- `nom::branch::alt` over two alternatives (nested for more). -/
def palt {α : Type} (p q : List Char → Option (List Char × α)) :
    List Char → Option (List Char × α) := fun s =>
  match p s with
  | some r => some r
  | none => q s

/-- `nom::combinator::value`. -/
def pvalue {α β : Type} (v : β) (p : List Char → Option (List Char × α)) :
    List Char → Option (List Char × β) := fun s =>
  match p s with
  | some (rest, _) => some (rest, v)
  | none => none

/-- `nom::multi::many1(anychar)`: consumes the whole remaining input,
failing on empty input. -/
def many1anychar : List Char → Option (List Char × List Char) := fun s =>
  match s with
  | [] => none
  | c :: cs => some ([], c :: cs)

/-! ## The Execute command-line grammar (mode.rs, `mod execute`). -/

namespace execute

def quit : List Char → Option (List Char × Message) :=
  pvalue Message.Quit (allConsuming (pchar 'q'))

def save : List Char → Option (List Char × Message) :=
  pvalue Message.Save (allConsuming (pchar 'w'))

/-- `map(separated_pair(char('w'), char(' '), many1(anychar)), SaveAs)`. -/
def save_as : List Char → Option (List Char × Message) := fun s =>
  match pchar 'w' s with
  | none => none
  | some (s1, _) =>
    match pchar ' ' s1 with
    | none => none
    | some (s2, _) =>
      match many1anychar s2 with
      | none => none
      | some (s3, name) => some (s3, Message.SaveAs name)

def command_for_input (input : List Char) : Option Message :=
  match allConsuming (palt quit (palt save save_as)) input with
  | some (_, command) => some command
  | none => none

end execute

/-- `Execute::parse`. -/
def Execute.parse (command_string : List Char) : Option Message :=
  execute.command_for_input command_string

/-- `Execute::handle`. -/
def Execute.handle (key : Key) : Option Message :=
  match key with
  | Key.Enter => some Message.EndCommandLineInput
  | Key.Char ch => some (Message.InsertChar ch)
  | Key.Left => some (Message.MoveCursorLeft 1)
  | Key.Right => some (Message.MoveCursorRight 1)
  | Key.Backspace => some Message.DeleteCharBackward
  | Key.Delete => some Message.DeleteCharForward
  | Key.Home => some Message.MoveCursorLineStart
  | Key.End => some Message.MoveCursorLineEnd
  | Key.Esc => some Message.AbortCommandLineInput
  | _ => none

/-- `Insert::handle`. -/
def Insert.handle (key : Key) : Option Message :=
  match key with
  | Key.Up => some (Message.MoveCursorUp 1)
  | Key.Down => some (Message.MoveCursorDown 1)
  | Key.Left => some (Message.MoveCursorLeft 1)
  | Key.Right => some (Message.MoveCursorRight 1)
  | Key.Home => some Message.MoveCursorLineStart
  | Key.End => some Message.MoveCursorLineEnd
  | Key.PageUp => some Message.MoveCursorPageUp
  | Key.PageDown => some Message.MoveCursorPageDown
  | Key.Delete => some Message.DeleteCharForward
  | Key.Backspace => some Message.DeleteCharBackward
  | Key.Enter => some Message.InsertLineBreak
  | Key.Char ch => some (Message.InsertChar ch)
  | Key.Esc => some (Message.EnterMode Mode.default)
  | _ => none

/-! ## The Normal-mode grammar (mode.rs, `mod normal`). -/

namespace normal

def command_mode : List Char → Option (List Char × Message) :=
  pvalue (Message.EnterMode Mode.executeDefault) (pchar ':')

def insert_mode : List Char → Option (List Char × Message) :=
  pvalue (Message.EnterMode Mode.insert) (pchar 'i')

/-- `one_of("123456789")`. -/
def non_zero_digit : List Char → Option (List Char × Char) := fun s =>
  match s with
  | [] => none
  | c :: rest =>
    if c ∈ ['1', '2', '3', '4', '5', '6', '7', '8', '9']
    then some (rest, c) else none

/-- `nom::character::complete::digit0`: zero or more ASCII digits,
never fails. -/
def digit0 : List Char → Option (List Char × List Char) := fun s =>
  some (s.dropWhile Char.isDigit, s.takeWhile Char.isDigit)

/-- `recognize(pair(non_zero_digit, digit0))`: the consumed input. -/
def multiplier : List Char → Option (List Char × List Char) := fun s =>
  match non_zero_digit s with
  | none => none
  | some (s1, c) =>
    match digit0 s1 with
    | none => none
    | some (s2, ds) => some (s2, c :: ds)

def movement_key : List Char → Option (List Char × Char) :=
  palt (pchar 'h') (palt (pchar 'j') (palt (pchar 'k') (pchar 'l')))

/-- `m.parse::<usize>()` over the recognised digit string. -/
def parseNatDigits (ds : List Char) : Nat :=
  ds.foldl (fun n c => 10 * n + (c.toNat - 48)) 0

def moveMessage (c : Char) (n : Nat) : Message :=
  if c = 'h' then Message.MoveCursorLeft n
  else if c = 'j' then Message.MoveCursorDown n
  else if c = 'k' then Message.MoveCursorUp n
  else Message.MoveCursorRight n

def single_move_action : List Char → Option (List Char × Message) := fun s =>
  match movement_key s with
  | none => none
  | some (rest, c) => some (rest, moveMessage c 1)

def multi_move_action : List Char → Option (List Char × Message) := fun s =>
  match multiplier s with
  | none => none
  | some (s1, m) =>
    match movement_key s1 with
    | none => none
    | some (s2, c) => some (s2, moveMessage c (parseNatDigits m))

def movement_action : List Char → Option (List Char × Message) :=
  palt single_move_action multi_move_action

def command_for_input (input : List Char) : Option Message :=
  match allConsuming (palt command_mode (palt insert_mode movement_action)) input with
  | some (_, command) => some command
  | none => none

end normal

/-- `Normal::handle`: takes the pending `input_buffer` and the key,
returns the new buffer and the message, if any.  Printable characters
are appended to the buffer and `Esc` clears it; direct single-key
mappings short-circuit the grammar; otherwise the buffer is fed to the
grammar and then cleared (the `map_or_else` default branch of the
source clears it whether or not a rule matched). -/
def Normal.handle (input_buffer : List Char) (key : Key) :
    List Char × Option Message :=
  let buf1 : List Char :=
    match key with
    | Key.Char ch => input_buffer ++ [ch]
    | _ => input_buffer
  let buf2 : List Char :=
    match key with
    | Key.Esc => []
    | _ => buf1
  let direct : Option Message :=
    match key with
    | Key.Home => some Message.MoveCursorLineStart
    | Key.End => some Message.MoveCursorLineEnd
    | Key.PageUp => some Message.MoveCursorPageUp
    | Key.PageDown => some Message.MoveCursorPageDown
    | Key.Insert => some (Message.EnterMode Mode.insert)
    | Key.Enter => some (Message.MoveCursorDown 1)
    | _ => none
  match direct with
  | some m => (buf2, some m)
  | none => ([], normal.command_for_input buf2)

/-! ## Frame and diff (src/velm_core/src/render.rs) -/

/-- Colors supported by the editor. -/
inductive Color where
  | Reset | Black | Red | Green | Yellow | Blue | Magenta | Cyan
  | Gray | DarkGray | LightRed | LightGreen | LightYellow | LightBlue
  | LightMagenta | LightCyan | White
  | Rgb (r g b : Nat)
  | AnsiValue (n : Nat)
deriving DecidableEq, Repr

def Color.default : Color := Color.Reset

/-- A single cell within the frame: position, symbol (one grapheme) and
style information. -/
structure Cell where
  position : Position
  symbol : List Char
  foreground : Color
  background : Color
deriving DecidableEq, Repr

/-- `Cell::reset`: set the symbol back to one space. -/
def Cell.reset (c : Cell) : Cell := { c with symbol := [' '] }

/-- A mapping of Cells for a given area, with the pending cursor
position of the frame being built. -/
structure Frame where
  area : Rect
  cells : List Cell
  cursor_position : Position
deriving DecidableEq, Repr

/-- `Frame::filled`: cells in row-major order, each carrying its own
(col, row) position and the given symbol. -/
def Frame.filled (area : Rect) (symbol : List Char) : Frame :=
  ⟨area,
   ((List.range area.height).map (fun row =>
     (List.range area.width).map (fun col =>
       Cell.mk ⟨col, row⟩ symbol Color.Reset Color.Reset))).flatten,
   Position.default⟩

/-- `Frame::empty`. -/
def Frame.empty (area : Rect) : Frame := Frame.filled area [' ']

/-- `Frame::diff`: called as `previous.diff(&current)`; zips the current
frame's cells (`back_buffer`) with the previous frame's
(`front_buffer`) and collects the current frame's cell at every index
where the pair differs (`&back_buffer[i]` is the first component of the
zipped pair at `i`). -/
def Frame.diff (prev cur : Frame) : List Cell :=
  ((cur.cells.zip prev.cells).filter (fun bf => bf.1 ≠ bf.2)).map Prod.fst

/-! ## TextInput (src/velm_core/src/component/text_input.rs).
Commands returned from updates are `communication::wrap(msg)`, modelled
as the wrapped `Message` itself. -/

structure TextInput where
  cursor_position : Nat
  focused : Bool
  place_holder : List Char
  position : Position
  prompt : List Char
  value : Row
deriving DecidableEq, Repr

namespace TextInput

def new (prompt place_holder : List Char) (position : Position) : TextInput :=
  ⟨0, false, place_holder, position, prompt, ⟨[]⟩⟩

def focus (t : TextInput) : TextInput := { t with focused := true }

def unfocus (t : TextInput) : TextInput := { t with focused := false }

def reset (t : TextInput) : TextInput :=
  { t with value := ⟨[]⟩, cursor_position := 0 }

/-- `TextInput::update` (never errors in the source). -/
def update (t : TextInput) (msg : Message) : TextInput × Option Command :=
  match msg with
  | Message.InsertChar ch =>
    ({ t with value := t.value.insert t.cursor_position ch,
              cursor_position := t.cursor_position + 1 }, none)
  | Message.EndCommandLineInput =>
    (t.reset, some (Message.ParseCommandLineInput t.value.contents))
  | Message.AbortCommandLineInput =>
    (t.reset, some (Message.EnterMode Mode.default))
  | Message.MoveCursorLeft n =>
    (if t.cursor_position > 1
     then { t with cursor_position := t.cursor_position - n } else t, none)
  | Message.MoveCursorRight n =>
    (if t.cursor_position ≠ t.value.len
     then { t with cursor_position := t.cursor_position + n } else t, none)
  | Message.MoveCursorLineStart => ({ t with cursor_position := 1 }, none)
  | Message.MoveCursorLineEnd => ({ t with cursor_position := t.value.len }, none)
  | Message.DeleteCharForward =>
    let t1 := { t with value := t.value.delete t.cursor_position }
    if t1.value.len ≤ 1
    then (t1.reset, some (Message.EnterMode Mode.default))
    else (t1, none)
  | Message.DeleteCharBackward =>
    let t1 := { t with cursor_position := t.cursor_position - 1 }
    let t2 := { t1 with value := t1.value.delete t1.cursor_position }
    if t2.value.len ≤ 1
    then (t2.reset, some (Message.EnterMode Mode.default))
    else (t2, none)
  | _ => (t, none)

end TextInput

/-! ## Buffer (src/velm_core/src/component/buffer.rs) -/

structure BufferState where
  cursor_position : Position
  document : Document
  focused : Bool
  offset : Position
  viewport : Rect
deriving DecidableEq, Repr

namespace BufferState

def new (viewport : Rect) (document : Document) : BufferState :=
  ⟨Position.default, document, false, Position.default, viewport⟩

/-- `Buffer::scroll`.  The source builds `(usize, usize)` pairs and
converts the result with `Position::from`; that conversion has no impl
under src/, so, modelled from the spec's `Position{col,row}` field order
(and `Position::new(col, row)`), a pair is read componentwise as
(col, row). -/
def scroll (b : BufferState) : BufferState :=
  let col := b.cursor_position.col
  let row := b.cursor_position.row
  let width := b.viewport.width
  let height := b.viewport.height - 2
  let offset1 : Nat × Nat :=
    if row < b.offset.row then (b.offset.col, row)
    else if col ≥ b.offset.col + height then (b.offset.row, col - height + 1)
    else (b.offset.col, b.offset.row)
  let offset2 : Nat × Nat :=
    if col < b.offset.col then (col, offset1.2)
    else if col ≥ b.offset.col + width then (col + width + 1, offset1.2)
    else (b.offset.col, offset1.2)
  { b with offset := ⟨offset2.1, offset2.2⟩ }

/-- `Buffer::move_cursor`.  The source computes `col - n` and `row - n`
with plain `usize` subtraction; `Nat` subtraction models the defined
(non-underflowing) cases. -/
def move_cursor (b : BufferState) (msg : Message) : BufferState :=
  let terminal_height := b.viewport.height - 2
  let col := b.cursor_position.col
  let row := b.cursor_position.row
  let height := b.document.len
  let width := (b.document.row row).elim 0 Row.len
  let p : Nat × Nat :=
    match msg with
    | Message.MoveCursorUp n => (col, row - n)
    | Message.MoveCursorDown n =>
      if row < height then (col, row + n) else (col, row)
    | Message.MoveCursorLeft n =>
      if col > 0 then (col - n, row)
      else if row > 0 then (b.document.row row).elim (0, row - n) (fun r => (r.len, row - n))
      else (col, row)
    | Message.MoveCursorRight n =>
      if col < width then (col + n, row)
      else if row < height then (0, row + n)
      else (col, row)
    | Message.MoveCursorPageUp =>
      if row > terminal_height then (col, row - terminal_height) else (col, 0)
    | Message.MoveCursorPageDown =>
      if row + terminal_height < height then (col, row + terminal_height) else (col, height)
    | Message.MoveCursorLineStart => (0, row)
    | Message.MoveCursorLineEnd => (width, row)
    | _ => (col, row)
  let new_width := (b.document.row p.2).elim 0 Row.len
  { b with cursor_position := ⟨if p.1 > new_width then new_width else p.1, p.2⟩ }

/-- `Buffer::update`: mutates the document/cursor and then always
recomputes the scroll offset; a failed document insert propagates the
error before the cursor moves or the offset is recomputed. -/
def update (b : BufferState) (msg : Message) :
    Except (List Char) (BufferState × Option Command) :=
  let after : Except (List Char) BufferState :=
    match msg with
    | Message.InsertChar ch =>
      match b.document.insert b.cursor_position ch with
      | (_, some e) => Except.error e
      | (d, none) =>
        Except.ok (({ b with document := d }).move_cursor (Message.MoveCursorRight 1))
    | Message.InsertLineBreak =>
      Except.ok ((({ b with document := b.document.insert_newline b.cursor_position
        }).move_cursor (Message.MoveCursorDown 1)).move_cursor Message.MoveCursorLineStart)
    | Message.DeleteCharForward =>
      Except.ok { b with document := b.document.delete b.cursor_position }
    | Message.DeleteCharBackward =>
      if b.cursor_position.col > 0 ∨ b.cursor_position.row > 0 then
        let b1 := b.move_cursor (Message.MoveCursorLeft 1)
        Except.ok { b1 with document := b1.document.delete b1.cursor_position }
      else Except.ok b
    | Message.Save => Except.ok { b with document := (b.document.save none).1 }
    | Message.SaveAs name => Except.ok { b with document := (b.document.save (some name)).1 }
    | _ => Except.ok (b.move_cursor msg)
  match after with
  | Except.error e => Except.error e
  | Except.ok b1 => Except.ok (b1.scroll, none)

end BufferState

/-! ## Window (src/velm_core/src/component/window.rs) -/

structure Window where
  active_buffer_idx : Nat
  buffers : List BufferState
  command_prompt : TextInput
  mode : Mode
  size : Rect
deriving DecidableEq, Repr

namespace Window

def new (size : Rect) (mode : Mode) : Window :=
  let prompt := TextInput.new ":".toList " Press : to enter a command...".toList
    ⟨0, size.bottom⟩
  let prompt :=
    match mode with
    | Mode.execute _ _ => prompt.focus
    | _ => prompt
  ⟨0, [], prompt, mode, size⟩

def buffer_space (w : Window) : Rect :=
  Rect.positioned w.size.width w.size.height w.size.left (w.size.bottom - 2)

/-- `Window::update`.  The result is `none` exactly when the source
would index `self.buffers[self.active_buffer_idx]` out of bounds (a
panic); otherwise it is the updated window together with the routed
child's `Result<Option<Command>>`. -/
def update (w : Window) (msg : Message) :
    Option (Except (List Char) (Window × Option Command)) :=
  let w1 : Window :=
    match msg with
    | Message.EnterMode m =>
      let buffers' :=
        match m with
        | Mode.insert =>
          if w.buffers.isEmpty
          then w.buffers ++ [BufferState.new w.buffer_space Document.default]
          else w.buffers
        | _ => w.buffers
      let prompt' :=
        match m with
        | Mode.execute _ _ => w.command_prompt.focus
        | _ => w.command_prompt.unfocus
      { w with buffers := buffers', command_prompt := prompt', mode := m }
    | _ => w
  match w1.mode with
  | Mode.execute _ _ =>
    let (t', cmd) := w1.command_prompt.update msg
    some (Except.ok ({ w1 with command_prompt := t' }, cmd))
  | _ =>
    match w1.buffers.get? w1.active_buffer_idx with
    | none => none
    | some b =>
      match b.update msg with
      | Except.error e => some (Except.error e)
      | Except.ok (b', cmd) =>
        some (Except.ok ({ w1 with buffers := w1.buffers.set w1.active_buffer_idx b' }, cmd))

end Window

/-! ## Spec-side definitions, for refinement statements -/

/-- Modelled from the spec: the command-line mini-language as worded —
exactly `q` is Quit, exactly `w` is Save, `w` then a space then a
non-empty name is SaveAs of all remaining characters, anything else is
no message. -/
def executeParseSpec (s : List Char) : Option Message :=
  if s = ['q'] then some Message.Quit
  else if s = ['w'] then some Message.Save
  else
    match s with
    | c :: d :: rest =>
      if c = 'w' ∧ d = ' ' ∧ rest ≠ [] then some (Message.SaveAs rest) else none
    | _ => none

/-- Two cells differ in content or colors (their positions are not
compared). -/
def cellDiffers (a b : Cell) : Prop :=
  a.symbol ≠ b.symbol ∨ a.foreground ≠ b.foreground ∨ a.background ≠ b.background

instance (a b : Cell) : Decidable (cellDiffers a b) := by
  unfold cellDiffers; infer_instance

/-- Modelled from the spec: the diff contract — the current frame's cell
at every index where content or colors differ from the previous frame,
listed in index (row-major) order. -/
def diffSpec (prev cur : Frame) : List Cell :=
  (List.range cur.cells.length).filterMap fun i =>
    match cur.cells.get? i, prev.cells.get? i with
    | some b, some f => if cellDiffers b f then some b else none
    | _, _ => none

/-- The number of cluster-starting scalars of a string: its first scalar
plus every later non-`Extend` scalar. -/
def clusterStarts : List Char → Nat
  | [] => 0
  | _ :: cs => 1 + (cs.filter (fun d => !isExtend d)).length

/-! ## Helper lemmas about grapheme segmentation -/

theorem graphemes_cons_eq (c : Char) (cs : List Char) :
    graphemes (c :: cs) =
      match graphemes cs with
      | [] => [[c]]
      | [] :: gs => [c] :: [] :: gs
      | (d :: g) :: gs =>
        if isExtend d then (c :: d :: g) :: gs else [c] :: (d :: g) :: gs := by
  rfl

theorem graphemes_cons (c : Char) (cs : List Char) :
    ∃ g gs, graphemes (c :: cs) = (c :: g) :: gs := by
  rcases h : graphemes cs with _ | ⟨g1, gs⟩
  · exact ⟨[], [], by simp [graphemes, h]⟩
  · rcases g1 with _ | ⟨d, g⟩
    · exact ⟨[], [] :: gs, by simp [graphemes, h]⟩
    · by_cases hd : isExtend d
      · exact ⟨d :: g, gs, by simp [graphemes, h, hd]⟩
      · exact ⟨[], (d :: g) :: gs, by simp [graphemes, h, hd]⟩

theorem graphemes_flatten (s : List Char) : (graphemes s).flatten = s := by
  induction s with
  | nil => rfl
  | cons c cs ih =>
    rcases h : graphemes cs with _ | ⟨g1, gs⟩
    · rw [h] at ih
      simp only [List.flatten_nil] at ih
      simp [graphemes, h, ← ih]
    · rcases g1 with _ | ⟨d, g⟩
      · rw [h] at ih
        simp only [graphemes, h]
        simpa using ih
      · rw [h] at ih
        by_cases hd : isExtend d <;> simp [graphemes, h, hd] <;> simpa using ih

theorem graphemes_length (s : List Char) :
    (graphemes s).length = clusterStarts s := by
  induction s with
  | nil => rfl
  | cons c cs ih =>
    rcases cs with _ | ⟨c', cs'⟩
    · rfl
    · obtain ⟨g, gs, hg⟩ := graphemes_cons c' cs'
      rw [hg] at ih
      rw [graphemes_cons_eq c (c' :: cs'), hg]
      by_cases hd : isExtend c' <;>
        simp [hd, clusterStarts, List.filter_cons] at ih ⊢ <;> omega

theorem row_len_clusterStarts (r : Row) : r.len = clusterStarts r.string := by
  simp [Row.len, graphemes_length]

/-- Helper for the frame-diff claim: on cell lists whose positions agree
pointwise, the zip-filter of the implementation equals the index-ordered
filterMap of the contract. -/
theorem zip_filter_map_eq_filterMap (xs ys : List Cell)
    (hpos : xs.map Cell.position = ys.map Cell.position) :
    ((xs.zip ys).filter (fun bf => bf.1 ≠ bf.2)).map Prod.fst
      = (List.range xs.length).filterMap (fun i =>
          match xs.get? i, ys.get? i with
          | some b, some f => if cellDiffers b f then some b else none
          | _, _ => none) := by
  induction xs generalizing ys with
  | nil => simp
  | cons x xs ih =>
    rcases ys with _ | ⟨y, ys⟩
    · simp at hpos
    · simp only [List.map_cons, List.cons.injEq] at hpos
      obtain ⟨hxy, htl⟩ := hpos
      have step := ih ys htl
      have fsucc :
          ((fun i =>
            match (x :: xs).get? i, (y :: ys).get? i with
            | some b, some f => if cellDiffers b f then some b else none
            | _, _ => none) ∘ Nat.succ)
          = (fun i =>
            match xs.get? i, ys.get? i with
            | some b, some f => if cellDiffers b f then some b else none
            | _, _ => none) := by
        funext i
        simp [List.get?_cons_succ]
      rw [List.length_cons, List.range_succ_eq_map, List.filterMap_cons,
        List.filterMap_map, fsucc, List.zip_cons_cons, List.filter_cons]
      simp only [List.get?_cons_zero]
      by_cases hdiff : cellDiffers x y
      · have hne : x ≠ y := by
          intro he
          subst he
          simp [cellDiffers] at hdiff
        rw [if_pos hdiff,
          if_pos (show (decide (((x, y) : Cell × Cell).1 ≠ (x, y).2)) = true by simp [hne])]
        exact congrArg (List.cons x) step
      · have heq : x = y := by
          obtain ⟨xp, xsym, xfg, xbg⟩ := x
          obtain ⟨yp, ysym, yfg, ybg⟩ := y
          simp only [cellDiffers, ne_eq, not_or, not_not] at hdiff
          simp only at hxy
          obtain ⟨e1, e2, e3⟩ := hdiff
          rw [hxy, e1, e2, e3]
        rw [if_neg hdiff,
          if_neg (show ¬ ((decide (((x, y) : Cell × Cell).1 ≠ (x, y).2)) = true) by simp [heq])]
        exact step

/-! ## Claim theorems -/

/-- C1: evaluation of `Normal::handle` at the claim's inputs.  The claim
says unmatched input accumulates in the pending buffer, so `Char('3')`
then `Char('j')` yields `MoveCursorDown(3)`.  In the source the
`map_or_else` default branch clears the buffer after every grammar
attempt, matched or not, so `'3'` yields nothing (buffer cleared) and
the following `'j'` yields `MoveCursorDown(1)`; the multiplier grammar
rule (`normal::multi_move_action`) is unreachable through `handle` even
though it accepts `"3j"` directly (last conjunct).  The single-key
parts of the claim (`"j"`, `":"`) do hold. -/
theorem normal_handle_clears_pending_buffer_bug :
    (Normal.handle [] (Key.Char '3') = ([], none))
    ∧ (Normal.handle (Normal.handle [] (Key.Char '3')).1 (Key.Char 'j')
        = ([], some (Message.MoveCursorDown 1)))
    ∧ (Normal.handle [] (Key.Char 'j') = ([], some (Message.MoveCursorDown 1)))
    ∧ (Normal.handle [] (Key.Char ':')
        = ([], some (Message.EnterMode Mode.executeDefault)))
    ∧ (normal.command_for_input ['3', 'j'] = some (Message.MoveCursorDown 3)) := by
  decide

/-- C2: with no buffers and a mode other than `Execute`, `Window::update`
on any message other than `EnterMode(Insert)` / `EnterMode(Execute)`
indexes the empty buffer list out of bounds (`none` models the panic of
`self.buffers[self.active_buffer_idx]`). -/
theorem window_update_empty_buffers_out_of_bounds
    (w : Window) (msg : Message)
    (hb : w.buffers = [])
    (hmode : ∀ r p, w.mode ≠ Mode.execute r p)
    (h1 : msg ≠ Message.EnterMode Mode.insert)
    (h2 : ∀ r p, msg ≠ Message.EnterMode (Mode.execute r p)) :
    Window.update w msg = none := by
  cases msg with
  | EnterMode m =>
    cases m with
    | execute r p => exact absurd rfl (h2 r p)
    | insert => exact absurd rfl h1
    | normal buf => simp [Window.update, hb]
  | _ =>
    cases hm : w.mode with
    | execute r p => exact absurd hm (hmode r p)
    | _ => simp [Window.update, hb, hm]

/-- C2 witness: a fresh window (Normal mode, no buffers) on a
cursor-movement message. -/
theorem window_update_empty_buffers_out_of_bounds_witness :
    Window.update (Window.new ⟨80, 24, ⟨0, 0⟩⟩ Mode.default)
      (Message.MoveCursorDown 1) = none :=
  window_update_empty_buffers_out_of_bounds _ _ rfl
    (fun r p h => Mode.noConfusion h)
    (fun h => Message.noConfusion h)
    (fun r p h => by cases h)

/-- C3 counterexample: opening empty file contents produces a document
with zero rows, so not every way of producing a `Document` yields a row
count of at least one. -/
theorem document_open_empty_counterexample :
    ¬ (1 ≤ (Document.openFromContents [] []).len) := by
  decide

/-- C3 amended: a fresh (default) document has exactly one empty row,
and insert, delete, insert_newline and save preserve a row count of at
least one; `open` yields one row per line of the file contents, which
establishes the invariant only when the contents have at least one line
(an empty file yields zero rows). -/
theorem document_never_empty_amended :
    Document.default.rows = [⟨[]⟩]
    ∧ (∀ (d : Document) (p : Position) (ch : Char),
        1 ≤ d.len → 1 ≤ ((d.insert p ch).1).len)
    ∧ (∀ (d : Document) (p : Position), 1 ≤ d.len → 1 ≤ (d.delete p).len)
    ∧ (∀ (d : Document) (p : Position), 1 ≤ d.len → 1 ≤ (d.insert_newline p).len)
    ∧ (∀ (d : Document) (f : Option (List Char)), ((d.save f).1).len = d.len)
    ∧ (∀ (f c : List Char),
        (Document.openFromContents f c).len = (rustLines c).length) := by
  refine ⟨rfl, ?_, ?_, ?_, ?_, ?_⟩
  · intro d p ch h
    simp only [Document.insert, Document.len] at *
    split_ifs with h1 h2
    · simp
    · simpa using h
    · exact h
  · intro d p h
    simp only [Document.delete, Document.len] at *
    split_ifs with h1 h2
    · exact h
    · simp only [List.length_set, List.length_eraseIdx]
      split_ifs with h3
      · omega
      · exact h
    · simpa using h
  · intro d p h
    simp only [Document.insert_newline, Document.len] at *
    split_ifs with h1 h2
    · exact h
    · simp
    · rw [List.length_insertIdx _ _ (by simp; omega)]
      simp
  · intro d f
    cases f <;> simp only [Document.save, Document.len] <;> split <;> simp
  · intro f c
    simp [Document.openFromContents, Document.len]

/-- C3 witness: the preservation conjuncts applied to the fresh
document. -/
theorem document_never_empty_amended_witness :
    (1 ≤ ((Document.default.insert ⟨0, 0⟩ 'a').1).len)
    ∧ (1 ≤ (Document.default.delete ⟨0, 0⟩).len)
    ∧ (1 ≤ (Document.default.insert_newline ⟨0, 0⟩).len) :=
  ⟨document_never_empty_amended.2.1 Document.default ⟨0, 0⟩ 'a' (by decide),
   document_never_empty_amended.2.2.1 Document.default ⟨0, 0⟩ (by decide),
   document_never_empty_amended.2.2.2.1 Document.default ⟨0, 0⟩ (by decide)⟩

/-- C4: `Document::insert` trichotomy on the row index: at the length it
appends a new row containing just the character and succeeds; below the
length it inserts at the grapheme index within that row and succeeds;
above the length it fails with the out-of-range error and leaves the
document unchanged. -/
theorem document_insert_trichotomy (d : Document) (p : Position) (ch : Char) :
    (p.row = d.len →
      d.insert p ch = ({ d with rows := d.rows ++ [⟨[ch]⟩] }, none))
    ∧ (p.row < d.len →
      d.insert p ch =
        ({ d with rows :=
            (d.rows.set p.row ((d.rows.getD p.row Inhabited.default).insert p.col ch)) },
         none))
    ∧ (d.len < p.row → d.insert p ch = (d, some Document.insertErr)) := by
  refine ⟨?_, ?_, ?_⟩ <;> intro h
  · simp [Document.insert, h, Row.insert, Row.len, graphemes]
  · simp [Document.insert, h, Nat.ne_of_lt h]
  · have h1 : ¬ p.row = d.len := by omega
    have h2 : ¬ p.row < d.len := by omega
    simp [Document.insert, h1, h2]

/-- C4 witness: the three branches at the fresh one-row document. -/
theorem document_insert_trichotomy_witness :
    (Document.default.insert ⟨0, 1⟩ 'a'
      = ({ Document.default with rows := Document.default.rows ++ [⟨['a']⟩] }, none))
    ∧ (Document.default.insert ⟨0, 0⟩ 'b'
      = ({ Document.default with rows :=
            (Document.default.rows.set 0
              ((Document.default.rows.getD 0 Inhabited.default).insert 0 'b')) },
         none))
    ∧ (Document.default.insert ⟨0, 2⟩ 'c' = (Document.default, some Document.insertErr)) :=
  ⟨(document_insert_trichotomy Document.default ⟨0, 1⟩ 'a').1 (by decide),
   (document_insert_trichotomy Document.default ⟨0, 0⟩ 'b').2.1 (by decide),
   (document_insert_trichotomy Document.default ⟨0, 2⟩ 'c').2.2 (by decide)⟩

/-- C5: `Document::delete` — a no-op at or beyond the row count; when
the column equals the row's grapheme length and a following row exists,
the next row's content is merged onto the current row and the next row
removed, reducing the row count by exactly one; otherwise the grapheme
at that column is deleted within the row. -/
theorem document_delete_cases (d : Document) (p : Position) :
    (d.len ≤ p.row → d.delete p = d)
    ∧ (p.row < d.len →
        p.col = (d.rows.getD p.row Inhabited.default).len →
        p.row + 1 < d.len →
        (d.delete p).rows =
          ((d.rows.eraseIdx (p.row + 1)).set p.row
            ((d.rows.getD p.row Inhabited.default).append
              (d.rows.getD (p.row + 1) Inhabited.default)))
        ∧ (d.delete p).len = d.len - 1)
    ∧ (p.row < d.len →
        ¬ (p.col = (d.rows.getD p.row Inhabited.default).len ∧ p.row + 1 < d.len) →
        (d.delete p).rows = d.rows.set p.row
          ((d.rows.getD p.row Inhabited.default).delete p.col)) := by
  refine ⟨?_, ?_, ?_⟩
  · intro h
    simp [Document.delete, h]
  · intro h hcol hnext
    have hge : ¬ p.row ≥ d.len := by omega
    have hcond : p.col = (d.rows.getD p.row Inhabited.default).len ∧ p.row < d.len - 1 :=
      ⟨hcol, by omega⟩
    simp only [Document.delete]
    rw [if_neg hge, if_pos hcond]
    refine ⟨rfl, ?_⟩
    simp only [Document.len, List.length_set, List.length_eraseIdx]
    simp only [Document.len] at hnext
    rw [if_pos (by omega)]
  · intro h hnot
    have hge : ¬ p.row ≥ d.len := by omega
    have hcond : ¬ (p.col = (d.rows.getD p.row Inhabited.default).len ∧ p.row < d.len - 1) := by
      simp only [Document.len] at *
      intro hc
      exact hnot ⟨hc.1, by omega⟩
    simp only [Document.delete]
    rw [if_neg hge, if_neg hcond]

/-- C5 witness: the merge case on a two-row document (row count drops to
one), and the no-op and in-row branches. -/
theorem document_delete_cases_witness :
    ((Document.mk none [⟨['a']⟩, ⟨['b']⟩]).delete ⟨1, 0⟩).rows
        = [⟨['a', 'b']⟩]
    ∧ ((Document.mk none [⟨['a']⟩, ⟨['b']⟩]).delete ⟨1, 0⟩).len = 1
    ∧ (Document.default.delete ⟨0, 5⟩ = Document.default)
    ∧ ((Document.mk none [⟨['a']⟩]).delete ⟨0, 0⟩).rows = [⟨[]⟩] := by
  have h2 := (document_delete_cases (Document.mk none [⟨['a']⟩, ⟨['b']⟩]) ⟨1, 0⟩).2.1
    (by decide) (by decide) (by decide)
  have h1 := (document_delete_cases Document.default ⟨0, 5⟩).1 (by decide)
  have h3 := (document_delete_cases (Document.mk none [⟨['a']⟩]) ⟨0, 0⟩).2.2
    (by decide) (by decide)
  refine ⟨?_, ?_, h1, ?_⟩
  · rw [h2.1]; decide
  · rw [h2.2]; decide
  · rw [h3]; decide

/-- C6: `Execute::parse` agrees with the spec's command-line grammar on
every finished command string: exactly `q` quits, exactly `w` saves,
`w` space non-empty-name saves as that name, everything else produces
no message. -/
theorem execute_parse_grammar (s : List Char) :
    Execute.parse s = executeParseSpec s := by
  rcases s with _ | ⟨c, _ | ⟨d, rest⟩⟩
  · rfl
  · by_cases h1 : c = 'q'
    · subst h1; rfl
    · by_cases h2 : c = 'w'
      · subst h2; rfl
      · simp [Execute.parse, execute.command_for_input, allConsuming, palt,
              execute.quit, execute.save, execute.save_as, pvalue, pchar,
              many1anychar, executeParseSpec, h1, h2]
  · by_cases hc : c = 'w'
    · subst hc
      by_cases hd : d = ' '
      · subst hd
        rcases rest with _ | ⟨e, rest1⟩
        · rfl
        · rfl
      · simp [Execute.parse, execute.command_for_input, allConsuming, palt,
              execute.quit, execute.save, execute.save_as, pvalue, pchar,
              many1anychar, executeParseSpec, hd]
    · by_cases hq : c = 'q'
      · subst hq
        simp [Execute.parse, execute.command_for_input, allConsuming, palt,
              execute.quit, execute.save, execute.save_as, pvalue, pchar,
              many1anychar, executeParseSpec, hc]
      · simp [Execute.parse, execute.command_for_input, allConsuming, palt,
              execute.quit, execute.save, execute.save_as, pvalue, pchar,
              many1anychar, executeParseSpec, hc, hq]

/-- C7: for frames whose cells carry equal positions index for index
(as all frames of identical geometry built by this code do),
`Frame::diff` returns exactly the current frame's cells whose content
or colors differ from the previous frame at the same index, in
row-major (index) order. -/
theorem frame_diff_changed_cells (prev cur : Frame)
    (hpos : cur.cells.map Cell.position = prev.cells.map Cell.position) :
    Frame.diff prev cur = diffSpec prev cur := by
  unfold Frame.diff diffSpec
  exact zip_filter_map_eq_filterMap cur.cells prev.cells hpos

/-- C7 witness: two 2×1 frames differing in exactly one cell; `diff`
returns exactly that one cell reference, at that cell's position. -/
theorem frame_diff_changed_cells_witness :
    (Frame.diff (Frame.empty (Rect.positioned 2 1 0 0))
        (Frame.mk (Rect.positioned 2 1 0 0)
          [Cell.mk ⟨0, 0⟩ [' '] Color.Reset Color.Reset,
           Cell.mk ⟨1, 0⟩ ['x'] Color.Reset Color.Reset] Position.default)
      = diffSpec (Frame.empty (Rect.positioned 2 1 0 0))
          (Frame.mk (Rect.positioned 2 1 0 0)
            [Cell.mk ⟨0, 0⟩ [' '] Color.Reset Color.Reset,
             Cell.mk ⟨1, 0⟩ ['x'] Color.Reset Color.Reset] Position.default))
    ∧ (Frame.diff (Frame.empty (Rect.positioned 2 1 0 0))
        (Frame.mk (Rect.positioned 2 1 0 0)
          [Cell.mk ⟨0, 0⟩ [' '] Color.Reset Color.Reset,
           Cell.mk ⟨1, 0⟩ ['x'] Color.Reset Color.Reset] Position.default)
      = [Cell.mk ⟨1, 0⟩ ['x'] Color.Reset Color.Reset]) :=
  ⟨frame_diff_changed_cells _ _ (by decide), by decide⟩

/-- C9: splitting a row and appending the two halves reconstructs the
original row exactly, for every row and every split index. -/
theorem row_split_append_roundtrip (r : Row) (i : Nat) :
    ((r.split i).1).append ((r.split i).2) = r := by
  cases r with
  | mk s =>
    simp only [Row.split, Row.append]
    rw [← List.flatten_append, List.take_append_drop, graphemes_flatten]

/-- C8 counterexample: inserting a combining mark (U+0301, an `Extend`
scalar) at the end of "a" merges into the preceding cluster, leaving
the grapheme length unchanged — `insert` does not increase `len()` by
exactly 1 for every char. -/
theorem row_insert_combining_counterexample :
    ¬ (((Row.mk ['a']).insert 1 (Char.ofNat 0x301)).len
        = (Row.mk ['a']).len + 1) := by
  decide

/-- C8 amended: `insert` increases `len()` (the grapheme-cluster count)
by exactly 1 provided neither the inserted char nor the row's first
scalar is a combining (`Extend`) scalar; and insert at `len()` on an
empty row behaves identically to insert at 0. -/
theorem row_insert_len_amended :
    (∀ (r : Row) (i : Nat) (ch : Char),
      isExtend ch = false →
      (∀ c, r.string.head? = some c → isExtend c = false) →
      (r.insert i ch).len = r.len + 1)
    ∧ (∀ ch : Char,
        Row.insert ⟨[]⟩ ((Row.mk []).len) ch = Row.insert ⟨[]⟩ 0 ch) := by
  constructor
  · intro r i ch hch hhead
    obtain ⟨s⟩ := r
    by_cases hi : i ≥ (Row.mk s).len
    · simp only [Row.insert, if_pos hi]
      rcases s with _ | ⟨c, cs⟩
      · simp [Row.len, graphemes]
      · rw [row_len_clusterStarts, row_len_clusterStarts]
        simp only [List.cons_append, clusterStarts]
        simp [List.filter_append, List.filter_cons, hch]
        omega
    · push_neg at hi
      simp only [Row.insert, if_neg (by omega : ¬ i ≥ (Row.mk s).len)]
      rcases s with _ | ⟨c, cs⟩
      · exfalso
        simp [Row.len, graphemes] at hi
      · obtain ⟨g, gs, hg⟩ := graphemes_cons c cs
        have hc : isExtend c = false := hhead c rfl
        rcases i with _ | j
        · simp only [List.take_zero, List.drop_zero, List.flatten_nil,
            List.nil_append]
          rw [graphemes_flatten]
          rw [row_len_clusterStarts, row_len_clusterStarts]
          simp only [clusterStarts]
          simp [List.filter_cons, hc]
          omega
        · rw [hg]
          have hcs : cs = g ++ ((List.take j gs).flatten ++ (List.drop j gs).flatten)
              := by
            have h1 := graphemes_flatten (c :: cs)
            rw [hg] at h1
            simp only [List.flatten_cons, List.cons_append, List.cons.injEq] at h1
            rw [← h1.2]
            congr 1
            rw [← List.flatten_append, List.take_append_drop]
          simp only [List.take_succ_cons, List.drop_succ_cons, List.flatten_cons]
          rw [row_len_clusterStarts, row_len_clusterStarts]
          simp only [List.cons_append, List.append_assoc, clusterStarts]
          rw [hcs]
          simp only [List.filter_append, List.length_append]
          rw [List.filter_cons_of_pos (by simp [hch])]
          simp only [List.length_cons]
          omega
  · intro ch
    rfl

/-- C8 witness: inserting a plain letter strictly inside a plain two
letter row adds exactly one grapheme. -/
theorem row_insert_len_amended_witness :
    ((Row.mk ['a', 'b']).insert 1 'x').len = (Row.mk ['a', 'b']).len + 1 :=
  row_insert_len_amended.1 (Row.mk ['a', 'b']) 1 'x' (by decide)
    (fun c hc => by
      simp only [List.head?, Option.some.injEq] at hc
      subst hc
      decide)

/-- C10: evaluation of `Buffer::scroll` (via `Buffer::update`) at a
state contradicting the claim.  With a 10×5 viewport (margin height − 2
= 3) and the cursor moving to row 4, the claim requires the row offset
to increase so the cursor row stays within the visible area; the code
leaves the offset at (0, 0) because its bottom-edge test compares the
cursor COLUMN against the column offset plus the height margin (a
row/column transposition), so moving down never scrolls.  The last
conjunct shows the column branch overshooting: cursor column 12, width
10, offset (0,0) yields column offset 12 + 10 + 1 = 23 (a
`saturating_add` where the claim's left-bound tracking needs
column − width + 1), leaving the cursor outside the visible columns. -/
theorem buffer_scroll_ignores_cursor_row_bug :
    (BufferState.update
        ⟨⟨0, 3⟩, ⟨none, List.replicate 6 ⟨[]⟩⟩, false, ⟨0, 0⟩, ⟨10, 5, ⟨0, 0⟩⟩⟩
        (Message.MoveCursorDown 1)
      = Except.ok
          (⟨⟨0, 4⟩, ⟨none, List.replicate 6 ⟨[]⟩⟩, false, ⟨0, 0⟩, ⟨10, 5, ⟨0, 0⟩⟩⟩, none))
    ∧ ((4 : Nat) ≥ 0 + (5 - 2))
    ∧ ((BufferState.scroll
          ⟨⟨12, 0⟩, Document.default, false, ⟨0, 0⟩, ⟨10, 5, ⟨0, 0⟩⟩⟩).offset
        = ⟨23, 10⟩) := by
  decide

end Velm
